import Mathlib

/-
Verification of the cuOSD per-pixel compositor
(src/libraries/cuOSD/src/cuosd_kernel.cu) against its natural-language
specification.  The CUDA code is shallowly embedded: unsigned char values
are natural numbers below 256, C `>> 8` on non-negative ints is division
by 256, float coordinates and distances are rationals, and the host-side
launch function is modelled as a pure function returning the list of
emitted events (warnings, errors, kernel launches) together with the
surface it leaves behind.
-/

namespace CuOSD

/-- Embeds `u8cast` (cuosd_kernel.cu lines 38-41).  The source clamps an
int into 0..255; all call sites modelled here feed it non-negative
integer arithmetic over unsigned char inputs, so the value is a natural
number and only the upper clamp can fire. -/
def u8cast (v : ℕ) : ℕ := if 255 < v then 255 else v

/-- The blended output alpha of `blend_single_color` (line 71) and of
`BlendingPixel<ImageFormat::RGBA>::call` (line 558):
`((background_alpha * (255 - foreground_alpha)) >> 8) + foreground_alpha`. -/
def blend_alpha (ba fa : ℕ) : ℕ := ba * (255 - fa) / 256 + fa

/-- One colour channel of the source-over blend (lines 72-74 and
559-561): `u8cast((((c * ba * (255 - fa)) >> 8) + (cf * fa)) / blend_alpha)`.
`c` is the destination channel, `cf` the foreground channel. -/
def blend_channel (c ba cf fa : ℕ) : ℕ :=
  u8cast ((c * ba * (255 - fa) / 256 + cf * fa) / blend_alpha ba fa)

/-- A `uchar4` value: four byte channels. -/
structure Uchar4 where
  x : ℕ
  y : ℕ
  z : ℕ
  w : ℕ
  deriving DecidableEq

/-- Embeds `blend_single_color` (lines 68-76): composites the foreground
colour `(c0,c1,c2)` with alpha `a` into the accumulator pixel `color`. -/
def blend_single_color (color : Uchar4) (c0 c1 c2 a : ℕ) : Uchar4 :=
  ⟨blend_channel color.x color.w c0 a,
   blend_channel color.y color.w c1 a,
   blend_channel color.z color.w c2 a,
   blend_alpha color.w a⟩

/-- Embeds one destination pixel of `BlendingPixel<ImageFormat::RGBA>::call`
(lines 552-563): `p` is the destination pixel read from the surface,
`rcolor` the accumulated foreground; the formula is the same source-over
law repeated inline in the source. -/
def blending_pixel_rgba (p rcolor : Uchar4) : Uchar4 :=
  ⟨blend_channel p.x p.w rcolor.x rcolor.w,
   blend_channel p.y p.w rcolor.y rcolor.w,
   blend_channel p.z p.w rcolor.z rcolor.w,
   blend_alpha p.w rcolor.w⟩

/-- The four-pixel 2x2 accumulator quad (`uchar4 context_color[4]`). -/
structure Quad4 where
  p0 : Uchar4
  p1 : Uchar4
  p2 : Uchar4
  p3 : Uchar4
  deriving DecidableEq

/-- The all-transparent accumulator the kernel starts from
(`uchar4 context_color[4] = {0}`, line 716). -/
def quad_zero : Quad4 := ⟨⟨0,0,0,0⟩, ⟨0,0,0,0⟩, ⟨0,0,0,0⟩, ⟨0,0,0,0⟩⟩

/-- Embeds the final-blit skip test of `render_elements_kernel`
(line 788): the blit runs only when NOT all four accumulated alphas are
zero. -/
def quad_all_transparent (q : Quad4) : Bool :=
  q.p0.w == 0 && q.p1.w == 0 && q.p2.w == 0 && q.p3.w == 0

/-- Accumulator state after a quad in which only pixel 0 was covered by
an opaque primitive (e.g. the edge of a small filled circle): pixel 0
carries foreground alpha 255, the three neighbours stay transparent. -/
def acc_quad_partial : Quad4 := ⟨⟨200,0,0,255⟩, ⟨0,0,0,0⟩, ⟨0,0,0,0⟩, ⟨0,0,0,0⟩⟩

/-- A destination RGBA pixel whose alpha byte is 0, as found on any
freshly cleared RGBA surface. -/
def dest_pixel_clear : Uchar4 := ⟨0,0,0,0⟩

end CuOSD

namespace CuOSD

/-- C1 counterexample: compositing a foreground whose alpha is 0 does
NOT leave the destination bytes unchanged.  For the destination
`(10,20,30,255)` the accumulator blend `blend_single_color` returns
alpha `(255*255) >> 8 = 254`, so the destination alpha channel changes. -/
theorem alpha_zero_blend_changes_destination :
    blend_single_color ⟨10, 20, 30, 255⟩ 1 2 3 0 ≠ ⟨10, 20, 30, 255⟩ := by
  decide

/-- C1 (amended): compositing a foreground whose alpha is 255 writes
exactly the foreground colour and alpha, both in the per-quad
accumulator (`blend_single_color`) and in the RGBA final blit
(`BlendingPixel<RGBA>::call`); compositing with alpha 0 is not the
identity: a destination alpha `ba ≥ 1` is reduced to `ba - 1` by the
fixed-point `>> 8`. -/
theorem alpha_extremes_amended (dr dg db ba c0 c1 c2 : ℕ)
    (hba : ba ≤ 255) (h0 : c0 ≤ 255) (h1 : c1 ≤ 255) (h2 : c2 ≤ 255) :
    blend_single_color ⟨dr, dg, db, ba⟩ c0 c1 c2 255 = ⟨c0, c1, c2, 255⟩ ∧
    blending_pixel_rgba ⟨dr, dg, db, ba⟩ ⟨c0, c1, c2, 255⟩ = ⟨c0, c1, c2, 255⟩ ∧
    (1 ≤ ba → (blend_single_color ⟨dr, dg, db, ba⟩ c0 c1 c2 0).w = ba - 1) := by
  have hch : ∀ c cf : ℕ, cf ≤ 255 → blend_channel c ba cf 255 = cf := by
    intro c cf hcf
    simp only [blend_channel, blend_alpha, u8cast]
    norm_num
    omega
  refine ⟨?_, ?_, ?_⟩
  · simp only [blend_single_color, hch _ _ h0, hch _ _ h1, hch _ _ h2]
    simp [blend_alpha]
  · simp only [blending_pixel_rgba, hch _ _ h0, hch _ _ h1, hch _ _ h2]
    simp [blend_alpha]
  · intro hge
    simp only [blend_single_color, blend_alpha]
    omega

/-- C1 witness: the amended theorem at a concrete input. -/
theorem alpha_extremes_amended_witness :
    blend_single_color ⟨10, 20, 30, 255⟩ 40 50 60 255 = ⟨40, 50, 60, 255⟩ ∧
    blending_pixel_rgba ⟨10, 20, 30, 255⟩ ⟨40, 50, 60, 255⟩ = ⟨40, 50, 60, 255⟩ ∧
    (1 ≤ 255 → (blend_single_color ⟨10, 20, 30, 255⟩ 40 50 60 0).w = 255 - 1) :=
  alpha_extremes_amended 10 20 30 255 40 50 60 (by decide) (by decide) (by decide)
    (by decide)

/-- C2: the division by the blended output alpha is NOT always guarded.
In `BlendingPixel<RGBA>::call` the blit is entered as soon as one of the
four accumulated alphas is non-zero (line 788), yet the per-pixel
divisor `blend_alpha` is computed for all four pixels; at a pixel whose
foreground alpha is 0 over a destination pixel whose alpha byte is 0 the
divisor `((0 * 255) >> 8) + 0` is 0, so the source divides by zero. -/
theorem rgba_blit_divisor_zero_reachable :
    quad_all_transparent acc_quad_partial = false ∧
    blend_alpha dest_pixel_clear.w acc_quad_partial.p1.w = 0 := by
  decide

/-- Embeds `inbox_single_pixel` (lines 60-66): the point `(ix,iy)` is in
the box with corners `a`,`b`,`c`,`d` iff all four signed cross products
are strictly negative.  Float coordinates are modelled as rationals. -/
def inbox_single_pixel (ix iy ax ay bx by_ cx cy dx dy : ℚ) : Bool :=
  decide ((bx - ax) * (iy - ay) - (by_ - ay) * (ix - ax) < 0) &&
  decide ((cx - bx) * (iy - by_) - (cy - by_) * (ix - bx) < 0) &&
  decide ((dx - cx) * (iy - cy) - (dy - cy) * (ix - cx) < 0) &&
  decide ((ax - dx) * (iy - dy) - (ay - dy) * (ix - dx) < 0)

/-- The part of `RectangleCommand` the rasterisers read: the outer quad
corners (`ax1..dy1`), the inner quad corners (`ax2..dy2`), the stroke
`thickness` (-1 means filled) and the colour bytes `c0..c3`. -/
structure RectangleCmd where
  ax1 : ℚ
  ay1 : ℚ
  bx1 : ℚ
  by1 : ℚ
  cx1 : ℚ
  cy1 : ℚ
  dx1 : ℚ
  dy1 : ℚ
  ax2 : ℚ
  ay2 : ℚ
  bx2 : ℚ
  by2 : ℚ
  cx2 : ℚ
  cy2 : ℚ
  dx2 : ℚ
  dy2 : ℚ
  thickness : ℤ
  c0 : ℕ
  c1 : ℕ
  c2 : ℕ
  c3 : ℕ

/-- Pixel test against the outer quad (`ax1..dy1`) of a rectangle. -/
def inbox_outer (ix iy : ℚ) (p : RectangleCmd) : Bool :=
  inbox_single_pixel ix iy p.ax1 p.ay1 p.bx1 p.by1 p.cx1 p.cy1 p.dx1 p.dy1

/-- Pixel test against the inner quad (`ax2..dy2`) of a rectangle. -/
def inbox_inner (ix iy : ℚ) (p : RectangleCmd) : Bool :=
  inbox_single_pixel ix iy p.ax2 p.ay2 p.bx2 p.by2 p.cx2 p.cy2 p.dx2 p.dy2

/-- Embeds `render_rectangle_fill` (lines 221-234): each of the four
quad pixels is blended with the command colour iff it is inside the
outer quad. -/
def render_rectangle_fill (ix iy : ℚ) (p : RectangleCmd) (q : Quad4) : Quad4 :=
  let q0 := if inbox_outer ix iy p
    then { q with p0 := blend_single_color q.p0 p.c0 p.c1 p.c2 p.c3 } else q
  let q1 := if inbox_outer (ix+1) iy p
    then { q0 with p1 := blend_single_color q0.p1 p.c0 p.c1 p.c2 p.c3 } else q0
  let q2 := if inbox_outer ix (iy+1) p
    then { q1 with p2 := blend_single_color q1.p2 p.c0 p.c1 p.c2 p.c3 } else q1
  if inbox_outer (ix+1) (iy+1) p
    then { q2 with p3 := blend_single_color q2.p3 p.c0 p.c1 p.c2 p.c3 } else q2

/-- The per-pixel guard of `render_rectangle_border` (lines 265-267):
blend iff NOT inside the inner quad AND inside the outer quad. -/
def render_rectangle_border_covers (ix iy : ℚ) (p : RectangleCmd) : Bool :=
  !(inbox_inner ix iy p) && inbox_outer ix iy p

/-- Embeds `render_rectangle_border` (lines 264-285). -/
def render_rectangle_border (ix iy : ℚ) (p : RectangleCmd) (q : Quad4) : Quad4 :=
  let q0 := if render_rectangle_border_covers ix iy p
    then { q with p0 := blend_single_color q.p0 p.c0 p.c1 p.c2 p.c3 } else q
  let q1 := if render_rectangle_border_covers (ix+1) iy p
    then { q0 with p1 := blend_single_color q0.p1 p.c0 p.c1 p.c2 p.c3 } else q0
  let q2 := if render_rectangle_border_covers ix (iy+1) p
    then { q1 with p2 := blend_single_color q1.p2 p.c0 p.c1 p.c2 p.c3 } else q1
  if render_rectangle_border_covers (ix+1) (iy+1) p
    then { q2 with p3 := blend_single_color q2.p3 p.c0 p.c1 p.c2 p.c3 } else q2

/-- Embeds `do_rectangle<false>` (lines 691-698), the specialization
used when rotation/MSAA is off: filled iff `thickness == -1`, otherwise
the hollow border path. -/
def do_rectangle_nomsaa (ix iy : ℚ) (cmd : RectangleCmd) (q : Quad4) : Quad4 :=
  if cmd.thickness = -1 then render_rectangle_fill ix iy cmd q
  else render_rectangle_border ix iy cmd q

/-- A quadrilateral as the spec describes it: four corners in order. -/
structure SpecQuad where
  a : ℚ × ℚ
  b : ℚ × ℚ
  c : ℚ × ℚ
  d : ℚ × ℚ

/-- Signed z-component of the 2-D cross product. -/
def cross2 (u v : ℚ × ℚ) : ℚ := u.1 * v.2 - u.2 * v.1

/-- The four consecutive edges of a quadrilateral. -/
def quad_edges (q : SpecQuad) : List ((ℚ × ℚ) × (ℚ × ℚ)) :=
  [(q.a, q.b), (q.b, q.c), (q.c, q.d), (q.d, q.a)]

/-- The spec's "inside" notion: for each of the four consecutive edges,
the signed cross product of the edge vector with (P - edge_origin) is
strictly negative. -/
def inside_spec (p : ℚ × ℚ) (q : SpecQuad) : Prop :=
  ∀ e ∈ quad_edges q, cross2 (e.2 - e.1) (p - e.1) < 0

/-- The outer quad of a rectangle command as a `SpecQuad`. -/
def outer_quad (p : RectangleCmd) : SpecQuad :=
  ⟨(p.ax1, p.ay1), (p.bx1, p.by1), (p.cx1, p.cy1), (p.dx1, p.dy1)⟩

/-- The inner quad of a rectangle command as a `SpecQuad`. -/
def inner_quad (p : RectangleCmd) : SpecQuad :=
  ⟨(p.ax2, p.ay2), (p.bx2, p.by2), (p.cx2, p.cy2), (p.dx2, p.dy2)⟩

/-- A concrete hollow axis-aligned rectangle: outer quad (0,0)-(8,8),
inner quad (2,2)-(6,6), stroke thickness 2, opaque red.  Corners follow
the source's winding (a top-left, b bottom-left, c bottom-right,
d top-right). -/
def rect_hollow_c8 : RectangleCmd :=
  ⟨0, 0, 0, 8, 8, 8, 8, 0,
   2, 2, 2, 6, 6, 6, 6, 2,
   2, 255, 0, 0, 255⟩

/-- C8: `inbox_single_pixel` agrees with the spec's strictly-negative
cross-product test on every edge; the hollow-rectangle guard covers a
pixel iff it is inside the outer quad and not inside the inner quad; and
for `thickness ≥ 0` the dispatcher `do_rectangle<false>` takes exactly
the hollow border path. -/
theorem rectangle_coverage_iff :
    (∀ (ix iy : ℚ) (p : RectangleCmd),
      inbox_outer ix iy p = true ↔ inside_spec (ix, iy) (outer_quad p)) ∧
    (∀ (ix iy : ℚ) (p : RectangleCmd),
      render_rectangle_border_covers ix iy p = true ↔
        (inside_spec (ix, iy) (outer_quad p) ∧ ¬ inside_spec (ix, iy) (inner_quad p))) ∧
    (∀ (cmd : RectangleCmd), 0 ≤ cmd.thickness →
      ∀ (ix iy : ℚ) (q : Quad4),
        do_rectangle_nomsaa ix iy cmd q = render_rectangle_border ix iy cmd q) := by
  have hbox : ∀ (ix iy ax ay bx by_ cx cy dx dy : ℚ),
      inbox_single_pixel ix iy ax ay bx by_ cx cy dx dy = true ↔
        inside_spec (ix, iy) ⟨(ax, ay), (bx, by_), (cx, cy), (dx, dy)⟩ := by
    intro ix iy ax ay bx by_ cx cy dx dy
    simp [inbox_single_pixel, inside_spec, quad_edges, cross2, Prod.sub_def, and_assoc]
  refine ⟨?_, ?_, ?_⟩
  · intro ix iy p
    exact hbox ix iy p.ax1 p.ay1 p.bx1 p.by1 p.cx1 p.cy1 p.dx1 p.dy1
  · intro ix iy p
    have h1 := hbox ix iy p.ax1 p.ay1 p.bx1 p.by1 p.cx1 p.cy1 p.dx1 p.dy1
    have h2 := hbox ix iy p.ax2 p.ay2 p.bx2 p.by2 p.cx2 p.cy2 p.dx2 p.dy2
    have e1 : outer_quad p
        = ⟨(p.ax1, p.ay1), (p.bx1, p.by1), (p.cx1, p.cy1), (p.dx1, p.dy1)⟩ := rfl
    have e2 : inner_quad p
        = ⟨(p.ax2, p.ay2), (p.bx2, p.by2), (p.cx2, p.cy2), (p.dx2, p.dy2)⟩ := rfl
    rw [e1, e2, ← h1, ← h2]
    simp only [render_rectangle_border_covers, inbox_outer, inbox_inner,
      Bool.and_eq_true, Bool.not_eq_true', Bool.not_eq_true]
    tauto
  · intro cmd ht ix iy q
    have : cmd.thickness ≠ -1 := by omega
    simp [do_rectangle_nomsaa, this]

/-- C8 witness: the coverage equivalences at a concrete axis-aligned
rectangle (outer corners (0,0)-(8,8), inner corners (2,2)-(6,6)) and
concrete pixels. -/
theorem rectangle_coverage_iff_witness :
    (inbox_outer 1 1 rect_hollow_c8 = true ↔
      inside_spec (1, 1) (outer_quad rect_hollow_c8)) ∧
    (render_rectangle_border_covers 1 1 rect_hollow_c8 = true ↔
      (inside_spec (1, 1) (outer_quad rect_hollow_c8) ∧
        ¬ inside_spec (1, 1) (inner_quad rect_hollow_c8))) ∧
    do_rectangle_nomsaa 1 1 rect_hollow_c8 quad_zero =
      render_rectangle_border 1 1 rect_hollow_c8 quad_zero :=
  ⟨rectangle_coverage_iff.1 1 1 rect_hollow_c8,
   rectangle_coverage_iff.2.1 1 1 rect_hollow_c8,
   rectangle_coverage_iff.2.2 rect_hollow_c8 (by decide) 1 1 quad_zero⟩

/-- Embeds `interpolation_fn` (lines 156-166): linear alpha ramp around
the band `[a, b)` with a `padding`-pixel transition on both sides.  The
float position `x` is a rational; the float-to-unsigned-char conversion
of the ramp value truncates towards zero, which on these non-negative
values is the floor. -/
def interpolation_fn (x : ℚ) (a b padding : ℤ) (origin_alpha : ℕ) : ℕ :=
  let x0 : ℤ := if a - padding < 0 then 0 else a - padding
  let x1 : ℤ := b + padding
  if x < (x0 : ℚ) ∨ (x1 : ℚ) < x then 0
  else if (a : ℚ) ≤ x ∧ x < (b : ℚ) then origin_alpha
  else if (b : ℚ) ≤ x ∧ x ≤ (x1 : ℚ) then
    (⌊((x1 : ℚ) - x) / (padding : ℚ) * (origin_alpha : ℚ)⌋).toNat
  else if x < (a : ℚ) ∧ (x0 : ℚ) ≤ x then
    (⌊(x - (x0 : ℚ)) / (padding : ℚ) * (origin_alpha : ℚ)⌋).toNat
  else 0

/-- The annulus bounds computed by `render_circle_interpolation`
(lines 297-307): `inner = radius - thickness / 2` (C int division
truncates towards zero, `Int.tdiv`), `outer = inner + thickness`; for
negative thickness the inner bound becomes 0 and the outer bound is
`radius` when `thickness == -1`. -/
def render_circle_bounds (radius thickness : ℤ) : ℤ × ℤ :=
  let inner_boundsize := radius - Int.tdiv thickness 2
  let external_boundsize := inner_boundsize + thickness
  if thickness < 0 then
    (0, if thickness = -1 then radius else inner_boundsize)
  else (inner_boundsize, external_boundsize)

/-- The alpha `render_circle_interpolation` assigns to a pixel at
distance `r` from the circle centre (lines 309-312): `interpolation_fn`
over the annulus bounds with a 1-pixel padding. -/
def render_circle_alpha (r : ℚ) (radius thickness : ℤ) (c3 : ℕ) : ℕ :=
  let bounds := render_circle_bounds radius thickness
  interpolation_fn r bounds.1 bounds.2 1 c3

/-- The annulus bounds as the spec's words give them: `inner = radius -
thickness/2`, `outer = inner + thickness`; if `thickness == -1` then
`inner = 0, outer = radius`. -/
def spec_circle_inner_outer (radius thickness : ℤ) : ℤ × ℤ :=
  if thickness = -1 then (0, radius)
  else (radius - thickness / 2, radius - thickness / 2 + thickness)

/-- The circle coverage as the spec's words give it: alpha is `c3` when
`r ∈ [inner, outer)`, linearly ramped to 0 over a 1-pixel transition
beyond both the inner and the outer edge (the inner transition clamped
at distance 0), and 0 outside that padded annulus. -/
def spec_circle_alpha (r : ℚ) (inner outer : ℤ) (c3 : ℕ) : ℕ :=
  let lo : ℤ := max (inner - 1) 0
  let hi : ℤ := outer + 1
  if (inner : ℚ) ≤ r ∧ r < (outer : ℚ) then c3
  else if (outer : ℚ) ≤ r ∧ r ≤ (hi : ℚ) then (⌊((hi : ℚ) - r) * (c3 : ℚ)⌋).toNat
  else if (lo : ℚ) ≤ r ∧ r < (inner : ℚ) then (⌊(r - (lo : ℚ)) * (c3 : ℚ)⌋).toNat
  else 0

set_option maxHeartbeats 2000000 in
/-- Core equivalence between the source ramp and the spec ramp for a
1-pixel padding, at non-negative distances, for bands that are either
ordered (`a ≤ b`) or anchored at 0 (`a = 0`, the filled-circle case). -/
theorem interp_eq_spec (a b : ℤ) (hab : a ≤ b ∨ a = 0) (r : ℚ) (hr : 0 ≤ r)
    (c3 : ℕ) : interpolation_fn r a b 1 c3 = spec_circle_alpha r a b c3 := by
  have hab' : (a : ℚ) ≤ (b : ℚ) ∨ (a : ℚ) = 0 := by exact_mod_cast hab
  have hx0 : (if a - 1 < 0 then (0:ℤ) else a - 1) = max (a - 1) 0 := by
    split_ifs with h <;> omega
  rcases le_or_lt a 1 with hA | hA
  · have hA' : (a : ℚ) ≤ 1 := by exact_mod_cast hA
    have hmax : max (a - 1) 0 = 0 := max_eq_right (by omega)
    simp only [interpolation_fn, spec_circle_alpha, hx0, hmax]
    split_ifs <;>
      first
      | rfl
      | (exfalso; push_cast at *
         first
         | (casesm* _ ∨ _, _ ∧ _ <;> linarith)
         | tauto)
      | (refine congrArg (fun q : ℚ => (⌊q⌋).toNat) ?_; push_cast; ring)
  · have hA' : (1 : ℚ) < (a : ℚ) := by exact_mod_cast hA
    have hmax : max (a - 1) 0 = a - 1 := max_eq_left (by omega)
    simp only [interpolation_fn, spec_circle_alpha, hx0, hmax]
    split_ifs <;>
      first
      | rfl
      | (exfalso; push_cast at *
         first
         | (casesm* _ ∨ _, _ ∧ _ <;> linarith)
         | tauto)
      | (refine congrArg (fun q : ℚ => (⌊q⌋).toNat) ?_; push_cast; ring)

/-- C9: for a filled circle (`thickness == -1`) or a stroked circle with
non-negative thickness, the alpha `render_circle_interpolation` computes
at distance `r` equals the spec's description: `c3` on `[inner, outer)`,
a linear 1-pixel ramp beyond both edges, 0 outside the padded annulus,
with `inner = radius - thickness/2`, `outer = inner + thickness`
(`inner = 0, outer = radius` for `thickness == -1`). -/
theorem circle_coverage_eq_spec (radius thickness : ℤ)
    (h : thickness = -1 ∨ 0 ≤ thickness) (r : ℚ) (hr : 0 ≤ r) (c3 : ℕ) :
    render_circle_alpha r radius thickness c3 =
      spec_circle_alpha r (spec_circle_inner_outer radius thickness).1
        (spec_circle_inner_outer radius thickness).2 c3 := by
  rcases h with h | h
  · subst h
    have hb : render_circle_bounds radius (-1) = (0, radius) := by
      simp [render_circle_bounds]
    have hs : spec_circle_inner_outer radius (-1) = (0, radius) := by
      simp [spec_circle_inner_outer]
    rw [render_circle_alpha, hb, hs]
    exact interp_eq_spec 0 radius (Or.inr rfl) r hr c3
  · have htd : Int.tdiv thickness 2 = thickness / 2 :=
      Int.tdiv_eq_ediv h (by omega)
    have hb : render_circle_bounds radius thickness
        = (radius - thickness / 2, radius - thickness / 2 + thickness) := by
      rw [render_circle_bounds, htd]
      have : ¬ (thickness < 0) := by omega
      simp [this]
    have hs : spec_circle_inner_outer radius thickness
        = (radius - thickness / 2, radius - thickness / 2 + thickness) := by
      rcases eq_or_ne thickness (-1) with he | he
      · omega
      · simp [spec_circle_inner_outer, he]
    rw [render_circle_alpha, hb, hs]
    exact interp_eq_spec _ _ (Or.inl (by omega)) r hr c3

/-- C9 witness: the equivalence at radius 5, thickness 2, distance 9/2,
command alpha 100. -/
theorem circle_coverage_eq_spec_witness :
    render_circle_alpha (9/2) 5 2 100 =
      spec_circle_alpha (9/2) (spec_circle_inner_outer 5 2).1
        (spec_circle_inner_outer 5 2).2 100 :=
  circle_coverage_eq_spec 5 2 (Or.inr (by norm_num)) (9/2) (by norm_num) 100

/-- The fields of a `TextLocation` glyph entry: destination position,
column offset into the atlas row, and glyph extent. -/
structure TextLocation where
  image_x : ℤ
  image_y : ℤ
  text_x : ℤ
  text_w : ℤ
  text_h : ℤ

/-- The coverage alpha `render_text` computes for quad pixel 0
(lines 389-392): outside the glyph rectangle it is 0, inside it is
`(text_bitmap[fy * text_bitmap_width + bfx + 0] * (int)a) >> 8` with
`fx = ix - image_x`, `fy = iy - image_y`, `bfx = fx + text_x`.  The
atlas is modelled as a function from byte index to byte. -/
def render_text_alpha0 (ix iy : ℤ) (loc : TextLocation) (text_bitmap : ℤ → ℕ)
    (text_bitmap_width : ℤ) (a : ℕ) : ℕ :=
  let fx := ix - loc.image_x
  let fy := iy - loc.image_y
  let bfx := fx + loc.text_x
  if fx < 0 ∨ fy < 0 ∨ loc.text_w ≤ fx ∨ loc.text_h ≤ fy then 0
  else text_bitmap (fy * text_bitmap_width + bfx) * a / 256

/-- A glyph whose atlas is the constant byte 200. -/
def atlas200 : ℤ → ℕ := fun _ => 200

/-- The glyph location used in the S4 scenario: a 4x4 glyph at the
origin. -/
def text_loc_s4 : TextLocation := ⟨0, 0, 0, 4, 4⟩

/-- C5 counterexample: for an atlas byte of 200 and command alpha
`c3 = 255`, the coverage alpha the source computes is
`(200 * 255) >> 8 = 199`, not the claimed `200 * 255 / 255 = 200`. -/
theorem text_alpha_not_255_scaled :
    render_text_alpha0 1 1 text_loc_s4 atlas200 16 255 = 199 ∧ (199 : ℕ) ≠ 200 := by
  decide

/-- C5 (amended): for a pixel inside the glyph rectangle the coverage
alpha is the atlas byte at `fy * atlas_width + (fx + text_x)` scaled by
`c3 / 256` (an arithmetic shift by 8, not a division by 255); in the S4
scenario (atlas byte 200, `c3 = 255`, transparent black destination) the
destination alpha after the accumulator blend and the RGBA blit is 199. -/
theorem text_alpha_shift_scaling (ix iy : ℤ) (loc : TextLocation)
    (text_bitmap : ℤ → ℕ) (bw : ℤ) (a : ℕ)
    (h1 : 0 ≤ ix - loc.image_x) (h2 : 0 ≤ iy - loc.image_y)
    (h3 : ix - loc.image_x < loc.text_w) (h4 : iy - loc.image_y < loc.text_h) :
    render_text_alpha0 ix iy loc text_bitmap bw a
      = text_bitmap ((iy - loc.image_y) * bw + (ix - loc.image_x + loc.text_x))
          * a / 256 ∧
    (blending_pixel_rgba ⟨0,0,0,0⟩ (blend_single_color ⟨0,0,0,0⟩ 255 255 255 199)).w
      = 199 := by
  constructor
  · simp only [render_text_alpha0]
    rw [if_neg (by omega)]
  · decide

/-- C5 witness: the amended theorem at the S4 input. -/
theorem text_alpha_shift_scaling_witness :
    render_text_alpha0 1 1 text_loc_s4 atlas200 16 255
      = atlas200 ((1 - text_loc_s4.image_y) * 16
          + (1 - text_loc_s4.image_x + text_loc_s4.text_x)) * 255 / 256 ∧
    (blending_pixel_rgba ⟨0,0,0,0⟩ (blend_single_color ⟨0,0,0,0⟩ 255 255 255 199)).w
      = 199 :=
  text_alpha_shift_scaling 1 1 text_loc_s4 atlas200 16 255
    (by decide) (by decide) (by decide) (by decide)

/-- The command kinds the composite loop dispatches on (line 729). -/
inductive CmdType
  | rect
  | text
  | circle
  | seg
  | rgbaSrc
  | nv12Src
  deriving DecidableEq

/-- The `cuOSDContextCommand` header fields the loop reads: the type tag
and the inclusive bounding box. -/
structure CmdHeader where
  ctype : CmdType
  bounding_left : ℤ
  bounding_top : ℤ
  bounding_right : ℤ
  bounding_bottom : ℤ
  deriving DecidableEq

/-- The bounding-box cull of the command loop (lines 721-722): the quad
at origin `(ix,iy)` skips the command iff
`ix + 1 < left || ix > right || iy + 1 < top || iy > bottom`. -/
def cmd_culled (ix iy : ℤ) (c : CmdHeader) : Bool :=
  decide (ix + 1 < c.bounding_left) || decide (c.bounding_right < ix) ||
  decide (iy + 1 < c.bounding_top) || decide (c.bounding_bottom < iy)

/-- How one loop iteration updates `itext_line`: a culled text command
still increments it (lines 724-726), a dispatched text command
increments it in its case arm (line 738), every other command leaves it
unchanged. -/
def step_itext (ix iy : ℤ) (c : CmdHeader) (t : ℕ) : ℕ :=
  if cmd_culled ix iy c then (if c.ctype = CmdType.text then t + 1 else t)
  else
    match c.ctype with
    | CmdType.text => t + 1
    | _ => t

/-- The `[ilocation_begin, ilocation_end)` pair (lines 736-737) that the
loop fetches from `line_location_base` when it reaches command index `i`
with running counter `t`, or `none` if command `i` is culled or is not a
text command. -/
def text_bounds_at (ix iy : ℤ) (base : ℕ → ℤ) :
    List CmdHeader → ℕ → ℕ → Option (ℤ × ℤ)
  | [], _, _ => none
  | c :: _, t, 0 =>
    if cmd_culled ix iy c then none
    else if c.ctype = CmdType.text then some (base t, base (t + 1)) else none
  | c :: rest, t, i + 1 => text_bounds_at ix iy base rest (step_itext ix iy c t) i

/-- Number of text commands in a command list prefix. -/
def count_text : List CmdHeader → ℕ
  | [] => 0
  | c :: rest => (if c.ctype = CmdType.text then 1 else 0) + count_text rest

/-- The counter update is +1 exactly on text commands, culled or not. -/
theorem step_itext_eq (ix iy : ℤ) (c : CmdHeader) (t : ℕ) :
    step_itext ix iy c t = if c.ctype = CmdType.text then t + 1 else t := by
  cases hcul : cmd_culled ix iy c <;> cases hc : c.ctype <;>
    simp [step_itext, hcul, hc]

/-- Generalized loop invariant: starting the counter at `t`, the bounds
fetched at a dispatched text command of index `i` are the entries at
`t + (number of text commands before i)`. -/
theorem text_bounds_at_shift (ix iy : ℤ) (base : ℕ → ℤ) :
    ∀ (l : List CmdHeader) (i : ℕ) (h : i < l.length) (t : ℕ),
      (l.get ⟨i, h⟩).ctype = CmdType.text →
      cmd_culled ix iy (l.get ⟨i, h⟩) = false →
      text_bounds_at ix iy base l t i
        = some (base (t + count_text (l.take i)),
                base (t + count_text (l.take i) + 1)) := by
  intro l
  induction l with
  | nil => intro i h; simp at h
  | cons c rest ih =>
    intro i h t htype hcul
    cases i with
    | zero =>
      simp only [List.get] at htype hcul
      simp [text_bounds_at, hcul, htype, count_text]
    | succ i =>
      have hlen : i < rest.length := by simpa using h
      have htype' : (rest.get ⟨i, hlen⟩).ctype = CmdType.text := htype
      have hcul' : cmd_culled ix iy (rest.get ⟨i, hlen⟩) = false := hcul
      rw [text_bounds_at]
      rw [ih i hlen (step_itext ix iy c t) htype' hcul']
      have harg : step_itext ix iy c t + count_text (rest.take i)
          = t + count_text ((c :: rest).take (i + 1)) := by
        rw [step_itext_eq]
        simp only [List.take_succ_cons, count_text]
        split_ifs <;> omega
      rw [harg]

/-- C3: in the composite loop every command advances the per-thread text
counter by one exactly when it is a text command — dispatched or culled —
and consequently the k-th text command of the stream fetches exactly the
glyph range `[line_location_base[k], line_location_base[k+1])`, where
`k` is the number of text commands before it. -/
theorem text_counter_advance_and_ranges (ix iy : ℤ) :
    (∀ (c : CmdHeader) (t : ℕ),
      step_itext ix iy c t = if c.ctype = CmdType.text then t + 1 else t) ∧
    (∀ (base : ℕ → ℤ) (l : List CmdHeader) (i : ℕ) (h : i < l.length),
      (l.get ⟨i, h⟩).ctype = CmdType.text →
      cmd_culled ix iy (l.get ⟨i, h⟩) = false →
      text_bounds_at ix iy base l 0 i
        = some (base (count_text (l.take i)), base (count_text (l.take i) + 1))) :=
  ⟨fun c t => step_itext_eq ix iy c t,
   fun base l i h h1 h2 => by
     have hgen := text_bounds_at_shift ix iy base l i h 0 h1 h2
     simpa using hgen⟩

/-- A text command covering the origin quad. -/
def cmd_text_near : CmdHeader := ⟨CmdType.text, 0, 0, 100, 100⟩

/-- A rectangle command far from the origin quad (culled there). -/
def cmd_rect_far : CmdHeader := ⟨CmdType.rect, 1000, 1000, 1001, 1001⟩

/-- A second text command covering the origin quad. -/
def cmd_text_near2 : CmdHeader := ⟨CmdType.text, 0, 0, 100, 100⟩

/-- A concrete `line_location_base` directory. -/
def base_c3 : ℕ → ℤ := fun n => 100 * n

/-- C3 witness: in the stream [text, far rectangle, text], the second
text command (index 2, one text command before it) fetches the range at
directory entry 1. -/
theorem text_counter_advance_and_ranges_witness :
    text_bounds_at 0 0 base_c3 [cmd_text_near, cmd_rect_far, cmd_text_near2] 0 2
      = some
          (base_c3 (count_text ([cmd_text_near, cmd_rect_far, cmd_text_near2].take 2)),
           base_c3 (count_text ([cmd_text_near, cmd_rect_far, cmd_text_near2].take 2) + 1)) :=
  (text_counter_advance_and_ranges 0 0).2 base_c3
    [cmd_text_near, cmd_rect_far, cmd_text_near2] 2 (by decide) (by decide) (by decide)

/-- The clamp `max(min(v, hi), lo)` used on the launch bounding box
(lines 993-996). -/
def clamp_bound (v lo hi : ℤ) : ℤ := max (min v hi) lo

/-- Embeds `round_down2` (lines 43-45): clears the least significant
bit; on the non-negative values it receives this is `n - n % 2`. -/
def round_down2 (n : ℤ) : ℤ := n - n % 2

/-- The destination pixels the composite kernel can write for the thread
with grid coordinates `(tx, ty)`: the quad origin is
`(2*tx + bx, 2*ty + by)` where `bx`,`by` are the clamped, even-rounded
bounding-box corner (lines 993-999, 710-711); the thread returns without
writing when `ix < 0 || iy < 0 || ix >= width-1 || iy >= height-1`
(lines 712-713), otherwise the final blit writes the four pixels
`(ix, iy)`, `(ix+1, iy)`, `(ix, iy+1)`, `(ix+1, iy+1)`. -/
def render_elements_writes (width height bl bt : ℤ) (tx ty : ℕ) : List (ℤ × ℤ) :=
  let bx := round_down2 (clamp_bound bl 0 (width - 1))
  let byv := round_down2 (clamp_bound bt 0 (height - 1))
  let ix := 2 * (tx : ℤ) + bx
  let iy := 2 * (ty : ℤ) + byv
  if ix < 0 ∨ iy < 0 ∨ width - 1 ≤ ix ∨ height - 1 ≤ iy then []
  else [(ix, iy), (ix + 1, iy), (ix, iy + 1), (ix + 1, iy + 1)]

/-- An opaque filled rectangle whose outer quad covers (0,0)-(8,8); it
covers the whole quad at origin (2,2), so the accumulator is non-zero
and the final blit executes. -/
def rect_full_c10 : RectangleCmd :=
  ⟨0, 0, 0, 8, 8, 8, 8, 0,
   0, 0, 0, 0, 0, 0, 0, 0,
   -1, 9, 9, 9, 255⟩

/-- C10 counterexample: on a 4x4 surface (even width and height) the
thread with grid coordinates (1,1) passes the origin guard (its origin
(2,2) satisfies 2 < width-1) and the blit writes pixel (3,3) — and
3 > width - 2, refuting the claimed bound; a full-coverage opaque
rectangle makes the accumulator non-zero so the write is real. -/
theorem composite_writes_last_even_column :
    ((3 : ℤ), (3 : ℤ)) ∈ render_elements_writes 4 4 0 0 1 1 ∧
    (render_rectangle_fill 2 2 rect_full_c10 quad_zero).p0.w ≠ 0 ∧
    ¬ ((3 : ℤ) ≤ 4 - 2) := by
  refine ⟨by decide, ?_, by decide⟩
  norm_num [render_rectangle_fill, inbox_outer, inbox_single_pixel, rect_full_c10,
    quad_zero, blend_single_color, blend_alpha]

/-- C10 (amended): every pixel the composite kernel writes satisfies
`0 ≤ x ≤ width-1` and `0 ≤ y ≤ height-1`; quad origins are even, so on a
surface of odd width (resp. odd height) the written pixels additionally
satisfy `x ≤ width-2` (resp. `y ≤ height-2`) — the last column (resp.
row) is never modified. -/
theorem composite_write_bounds_amended (width height bl bt : ℤ) (tx ty : ℕ)
    (p : ℤ × ℤ) (hp : p ∈ render_elements_writes width height bl bt tx ty) :
    (0 ≤ p.1 ∧ p.1 ≤ width - 1 ∧ 0 ≤ p.2 ∧ p.2 ≤ height - 1) ∧
    (width % 2 = 1 → p.1 ≤ width - 2) ∧
    (height % 2 = 1 → p.2 ≤ height - 2) := by
  simp only [render_elements_writes] at hp
  have h1 : 0 ≤ clamp_bound bl 0 (width - 1) := le_max_right _ _
  have h2 : 0 ≤ clamp_bound bt 0 (height - 1) := le_max_right _ _
  rw [round_down2, round_down2] at hp
  set m1 := clamp_bound bl 0 (width - 1) with hm1
  set m2 := clamp_bound bt 0 (height - 1) with hm2
  clear_value m1 m2
  split_ifs at hp with hguard
  · simp at hp
  · simp only [List.mem_cons, List.not_mem_nil, or_false] at hp
    rcases hp with hp | hp | hp | hp <;> subst hp <;> dsimp only <;>
      exact ⟨⟨by omega, by omega, by omega, by omega⟩,
        fun _ => by omega, fun _ => by omega⟩

/-- C10 witness: the amended bound at an odd 5x5 surface, for the pixel
(3,3) written by the thread at grid coordinates (1,1). -/
theorem composite_write_bounds_amended_witness :
    (0 ≤ (((3:ℤ), (3:ℤ))).1 ∧ (((3:ℤ), (3:ℤ))).1 ≤ 5 - 1 ∧
      0 ≤ (((3:ℤ), (3:ℤ))).2 ∧ (((3:ℤ), (3:ℤ))).2 ≤ 5 - 1) ∧
    ((5:ℤ) % 2 = 1 → (((3:ℤ), (3:ℤ))).1 ≤ 5 - 2) ∧
    ((5:ℤ) % 2 = 1 → (((3:ℤ), (3:ℤ))).2 ≤ 5 - 2) :=
  composite_write_bounds_amended 5 5 0 0 1 1 (3, 3) (by decide)

/-- Host-visible effects of `cuosd_launch_kernel`: a warning line, an
error line, or a kernel launch (with the index of the selected
specialization in the dispatch table). -/
inductive OsdEvent
  | warnEvent
  | errorEvent
  | blurLaunch (idx : ℕ)
  | compositeLaunch (idx : ℕ)
  deriving DecidableEq

/-- What a call to the launch function leaves behind: the emitted events
in order, and the destination surface. -/
structure LaunchResult (σ : Type) where
  events : List OsdEvent
  surface : σ
  deriving DecidableEq

/-- The blur dispatch index computation of `cuosd_launch_kernel`
(lines 1064-1068): `index = (int)format - 1`, valid iff it lies in
`[0, 4)`; out of range produces an error and an early return. -/
def blur_dispatch_index (format : ℤ) : Option ℕ :=
  let index := format - 1
  if index < 0 ∨ 4 ≤ index then none else some index.toNat

/-- The composite dispatch index computation (lines 1090-1094):
`index = (int)have_rotate_msaa * 4 + (int)format - 1`, valid iff it lies
in `[0, 8)`. -/
def composite_dispatch_index (rotate : Bool) (format : ℤ) : Option ℕ :=
  let index := (if rotate then (1:ℤ) else 0) * 4 + format - 1
  if index < 0 ∨ 8 ≤ index then none else some index.toNat

/-- Embeds `cuosd_launch_blur_kernel_impl` (lines 1023-1046): warn and
return when `num_commands < 1`, otherwise launch the blur kernel (the
surface update is the abstract kernel `blurK` applied at the selected
index). -/
def cuosd_launch_blur_kernel_impl {σ : Type} (idx : ℕ) (blurK : ℕ → σ → σ)
    (num_commands : ℕ) (S : σ) : List OsdEvent × σ :=
  if num_commands < 1 then ([OsdEvent.warnEvent], S)
  else ([OsdEvent.blurLaunch idx], blurK idx S)

/-- Embeds `cuosd_launch_kernel_impl` (lines 985-1021): clamp the global
bounding box to the surface, round the top-left corner down to even,
warn and return when the clipped box is empty, otherwise launch the
composite kernel (abstract kernel `compK` at the selected index). -/
def cuosd_launch_kernel_impl {σ : Type} (idx : ℕ) (compK : ℕ → σ → σ)
    (width height bl bt br bb : ℤ) (S : σ) : List OsdEvent × σ :=
  let l := round_down2 (clamp_bound bl 0 (width - 1))
  let t := round_down2 (clamp_bound bt 0 (height - 1))
  let r := clamp_bound br 0 (width - 1)
  let b := clamp_bound bb 0 (height - 1)
  let bounding_width := r - l + 1
  let bounding_height := b - t + 1
  if bounding_width < 1 ∨ bounding_height < 1 then ([OsdEvent.warnEvent], S)
  else ([OsdEvent.compositeLaunch idx], compK idx S)

/-- The composite half of `cuosd_launch_kernel` (lines 1077-1102): when
`num_commands > 0`, compute the dispatch index, emit an error and stop
when it is out of range, otherwise call the selected impl. -/
def composite_part {σ : Type} (compK : ℕ → σ → σ) (format : ℤ) (rotate : Bool)
    (num_commands : ℕ) (width height bl bt br bb : ℤ) (S : σ) :
    List OsdEvent × σ :=
  if 0 < num_commands then
    match composite_dispatch_index rotate format with
    | none => ([OsdEvent.errorEvent], S)
    | some idx => cuosd_launch_kernel_impl idx compK width height bl bt br bb S
  else ([], S)

/-- Embeds `cuosd_launch_kernel` (lines 1048-1103): when there are blur
commands, dispatch the blur kernel first (an out-of-range blur index
errors and returns without running the composite half); then, when there
are composite commands, dispatch the composite kernel.  With both counts
zero neither branch runs and the function returns silently. -/
def cuosd_launch_kernel {σ : Type} (blurK compK : ℕ → σ → σ) (format : ℤ)
    (rotate : Bool) (num_commands num_blur_commands : ℕ)
    (width height bl bt br bb : ℤ) (S : σ) : LaunchResult σ :=
  if 0 < num_blur_commands then
    match blur_dispatch_index format with
    | none => ⟨[OsdEvent.errorEvent], S⟩
    | some idx =>
      let res1 := cuosd_launch_blur_kernel_impl idx blurK num_blur_commands S
      let res2 := composite_part compK format rotate num_commands
        width height bl bt br bb res1.2
      ⟨res1.1 ++ res2.1, res2.2⟩
  else
    let res2 := composite_part compK format rotate num_commands
      width height bl bt br bb S
    ⟨res2.1, res2.2⟩

/-- The four supported surface formats. -/
inductive ImageFormat
  | RGB
  | RGBA
  | BlockLinearNV12
  | PitchLinearNV12
  deriving DecidableEq

/-- Modelled from the spec: the numeric values of the `ImageFormat` enum
live in `cuosd_kernel.h`, which is not part of the sources here.  The
spec fixes the dispatch mapping `(RGB=0, RGBA=1, BlockLinearNV12=2,
PitchLinearNV12=3)` for the blur table, and the code computes the table
index as `(int)format - 1`, so the enum tags are RGB=1, RGBA=2,
BlockLinearNV12=3, PitchLinearNV12=4. -/
def formatTag : ImageFormat → ℤ
  | ImageFormat.RGB => 1
  | ImageFormat.RGBA => 2
  | ImageFormat.BlockLinearNV12 => 3
  | ImageFormat.PitchLinearNV12 => 4

/-- The dispatch-table position of each format per the spec's mapping. -/
def formatIndex : ImageFormat → ℕ
  | ImageFormat.RGB => 0
  | ImageFormat.RGBA => 1
  | ImageFormat.BlockLinearNV12 => 2
  | ImageFormat.PitchLinearNV12 => 3

/-- C4: the blur path selects the specialization at the format's table
position; the composite path selects position `rotate * 4 + format`; a
blur index outside `[0,4)` resolves to no table entry, and an
out-of-table index makes the launch function emit exactly one error
event and leave the surface untouched, launching nothing. -/
theorem dispatch_indexing :
    (∀ f : ImageFormat, blur_dispatch_index (formatTag f) = some (formatIndex f)) ∧
    (∀ (r : Bool) (f : ImageFormat),
      composite_dispatch_index r (formatTag f)
        = some ((if r then 1 else 0) * 4 + formatIndex f)) ∧
    (∀ t : ℤ, blur_dispatch_index t = none ↔ (t < 1 ∨ 4 < t)) ∧
    (∀ (σ : Type) (blurK compK : ℕ → σ → σ) (t : ℤ) (r : Bool)
      (nc nb : ℕ) (w h bl bt br bb : ℤ) (S : σ),
      (blur_dispatch_index t = none → 0 < nb →
        cuosd_launch_kernel blurK compK t r nc nb w h bl bt br bb S
          = ⟨[OsdEvent.errorEvent], S⟩) ∧
      (composite_dispatch_index r t = none → nb = 0 → 0 < nc →
        cuosd_launch_kernel blurK compK t r nc nb w h bl bt br bb S
          = ⟨[OsdEvent.errorEvent], S⟩)) := by
  refine ⟨?_, ?_, ?_, ?_⟩
  · intro f; cases f <;> rfl
  · intro r f; cases r <;> cases f <;> rfl
  · intro t
    simp only [blur_dispatch_index]
    split_ifs with hc <;> simp <;> omega
  · intro σ blurK compK t r nc nb w h bl bt br bb S
    constructor
    · intro hnone hpos
      simp [cuosd_launch_kernel, hpos, hnone]
    · intro hnone hnb hpos
      subst hnb
      simp [cuosd_launch_kernel, composite_part, hnone, hpos]

/-- C4 witness: format tag 99 is outside the blur table; with one blur
command the launch function emits one error event, launches nothing and
leaves the surface untouched. -/
theorem dispatch_indexing_witness :
    cuosd_launch_kernel (fun _ n => n + 1) (fun _ n => n + 2) 99 false 3 1
      16 16 0 0 15 15 (0 : ℕ) = ⟨[OsdEvent.errorEvent], 0⟩ :=
  (dispatch_indexing.2.2.2 ℕ (fun _ n => n + 1) (fun _ n => n + 2) 99 false 3 1
    16 16 0 0 15 15 0).1 (by decide) (by decide)

/-- C6 counterexample: with `num_commands == 0` and no blur commands the
launch function emits NO warning (the claim says it warns): neither
branch of `cuosd_launch_kernel` runs, so the event list is empty. -/
theorem empty_input_no_warning_emitted :
    OsdEvent.warnEvent ∉
      (cuosd_launch_kernel (fun _ n => n + 1) (fun _ n => n + 2) 2 false 0 0
        16 16 0 0 15 15 (0 : ℕ)).events := by
  decide

/-- C6 (amended): with `num_commands == 0` and no blur commands the
launch function silently does nothing — no kernel launch, no warning, no
error, and the destination surface is returned unchanged.  (The warning
of the degenerate-request case is emitted only inside the kernel impls,
which are never entered when both counts are zero.) -/
theorem empty_input_silent_noop {σ : Type} (blurK compK : ℕ → σ → σ)
    (format : ℤ) (rotate : Bool) (width height bl bt br bb : ℤ) (S : σ) :
    cuosd_launch_kernel blurK compK format rotate 0 0
      width height bl bt br bb S = ⟨[], S⟩ := by
  simp [cuosd_launch_kernel, composite_part]

/-- C7: identity on empty input — for every surface and every input with
`num_commands + num_blur_commands == 0`, the launch function launches no
kernel, emits nothing, and the surface after the call is the input
surface. -/
theorem identity_on_empty_input {σ : Type} (blurK compK : ℕ → σ → σ)
    (format : ℤ) (rotate : Bool) (num_commands num_blur_commands : ℕ)
    (width height bl bt br bb : ℤ) (S : σ)
    (h : num_commands + num_blur_commands = 0) :
    cuosd_launch_kernel blurK compK format rotate num_commands
      num_blur_commands width height bl bt br bb S = ⟨[], S⟩ := by
  have h1 : num_commands = 0 := by omega
  have h2 : num_blur_commands = 0 := by omega
  subst h1
  subst h2
  simp [cuosd_launch_kernel, composite_part]

/-- C7 witness: the identity at a concrete surface value. -/
theorem identity_on_empty_input_witness :
    cuosd_launch_kernel (fun _ n => n + 1) (fun _ n => n + 2) 2 false 0 0
      16 16 0 0 15 15 (5 : ℕ) = ⟨[], 5⟩ :=
  identity_on_empty_input (fun _ n => n + 1) (fun _ n => n + 2) 2 false 0 0
    16 16 0 0 15 15 5 (by decide)

end CuOSD
